import Mathlib

/-!
Verification development for the VoltHaberXYZ translation service.

The TypeScript sources embedded here are:
* the translation module (stripHtml, translateToTurkish, translateBatch,
  summarizeAndTranslate, summarizeInEnglish), and
* the HTTP translate endpoint (src/app/api/translate/route.ts).

Conventions of the shallow embedding:
* Strings are Lean `String` (lists of characters); lengths are character
  counts, which agree with JavaScript lengths on the ASCII texts involved.
* The cheerio HTML-to-text extraction is an external library; it is
  modelled as an explicit function parameter `ext : String → String`
  (cheerio.load never throws on a string, so the regex fallback branch of
  stripHtml is unreachable and is not modelled).
* The two provider HTTP calls are external collaborators; an `Env` record
  gives, for each input text, the observable outcome at the call site of
  `translateToTurkish`: a returned string or a thrown error.
* JavaScript async recursion consumes stack; a `fuel` parameter models the
  available stack, and running out of fuel models the thrown RangeError,
  which the source catches in its top level try/catch.
* Effects are explicit: `translateToTurkish` returns the outcome together
  with the list of provider calls it issued, in order.
-/

namespace VoltNews

/-- Characters treated as whitespace by the JavaScript regex class \s and
by String.prototype.trim (the common members; all texts involved use only
space, tab, newline and carriage return). -/
def isWs (c : Char) : Bool :=
  c = ' ' || c = '\t' || c = '\n' || c = '\r' || c = '\x0b' || c = '\x0c' || c = '\u00A0'

/-- JavaScript String.prototype.trim modelled on character lists: drop
whitespace from the front, then from the back. -/
def trimJS (l : List Char) : List Char :=
  (l.dropWhile isWs).rdropWhile isWs

/-- Trim of a string, source expression text.trim(). -/
def trimS (s : String) : String :=
  String.mk (trimJS s.data)

/-- Scanner of the whitespace collapsing replacement: the flag records
whether the previous character belonged to a whitespace run already
replaced by a single space. -/
def collapseGo (prevWs : Bool) : List Char → List Char
  | [] => []
  | c :: cs =>
    if isWs c then
      if prevWs then collapseGo true cs else ' ' :: collapseGo true cs
    else c :: collapseGo false cs

/-- Replacement text.replace(bsl s+, single space): every maximal run of
whitespace becomes one space. -/
def collapseWs (l : List Char) : List Char :=
  collapseGo false l

/-- Helper for the newline squashing regex: given the characters after a
first newline, return the number of characters matched by (bsl s)* followed
by a newline. The greedy whitespace star backtracks to the last newline
inside the leading whitespace run. -/
def nlRun (cs : List Char) : Option Nat :=
  let run := cs.takeWhile isWs
  if run.contains '\n' then some (run.rdropWhile (fun c => !(c = '\n'))).length
  else none

/-- Scanner of the newline squashing replacement. The first argument
counts characters of a match still to be skipped (the scan resumes after
the matched span, as the regex lastIndex does). -/
def nlGo : Nat → List Char → List Char
  | _ + 1, [] => []
  | skip + 1, _ :: cs => nlGo skip cs
  | 0, [] => []
  | 0, c :: cs =>
    if c = '\n' then
      match nlRun cs with
      | some n => '\n' :: nlGo n cs
      | none => c :: nlGo 0 cs
    else c :: nlGo 0 cs

/-- Replacement text.replace(newline (bsl s)* newline, single newline).
After whitespace collapsing the text holds no newline, so this pass is the
identity there; it is modelled for faithfulness. -/
def nlSquash (l : List Char) : List Char :=
  nlGo 0 l

/-- Scanner of a global regex replacement by the empty string. The matcher
returns, when the pattern matches at the head of the list, the total number
of characters matched (always positive for the patterns below). The skip
counter drops the remaining characters of a match, so scanning is leftmost
first and the matched span is not rescanned, as for a JavaScript global
replace. -/
def scrubGo (f : List Char → Option Nat) : Nat → List Char → List Char
  | _ + 1, [] => []
  | skip + 1, _ :: cs => scrubGo f skip cs
  | 0, [] => []
  | 0, c :: cs =>
    match f (c :: cs) with
    | some n => scrubGo f (n - 1) cs
    | none => c :: scrubGo f 0 cs

/-- Global regex replacement by the empty string, one cleaning pass of
stripHtml. -/
def scrub (f : List Char → Option Nat) (l : List Char) : List Char :=
  scrubGo f 0 l

/-- Case sensitive literal prefix test. -/
def litStarts (pat l : List Char) : Bool :=
  pat.isPrefixOf l

/-- Case insensitive literal prefix test; the pattern is given lowercase. -/
def ciStarts (pat l : List Char) : Bool :=
  (l.take pat.length).map Char.toLower == pat

/-- Length of the maximal run of non-whitespace characters, regex [^ bsl s]+. -/
def nonWsRun (l : List Char) : Nat :=
  (l.takeWhile (fun c => !isWs c)).length

/-- Matcher for https?:// [^ bsl s]+ (source line removing URLs). -/
def urlMatch (l : List Char) : Option Nat :=
  if litStarts "http://".data l then
    let r := nonWsRun (l.drop 7)
    if r = 0 then none else some (7 + r)
  else if litStarts "https://".data l then
    let r := nonWsRun (l.drop 8)
    if r = 0 then none else some (8 + r)
  else none

/-- Matcher for www. [^ bsl s]+ . -/
def wwwMatch (l : List Char) : Option Nat :=
  if litStarts "www.".data l then
    let r := nonWsRun (l.drop 4)
    if r = 0 then none else some (4 + r)
  else none

/-- Matcher for t.co/ [^ bsl s]+ . -/
def tcoMatch (l : List Char) : Option Nat :=
  if litStarts "t.co/".data l then
    let r := nonWsRun (l.drop 5)
    if r = 0 then none else some (5 + r)
  else none

/-- Alternatives of the source= pattern, in the alternation order of the
source regex. -/
def srcWords : List (List Char) :=
  ["twitter".data, "web".data, "facebook".data, "instagram".data, "reddit".data, "telegram".data]

/-- Matcher for source=(twitter|web|facebook|instagram|reddit|telegram)[^ bsl s]*
with the i flag. -/
def srcMatch (l : List Char) : Option Nat :=
  if ciStarts "source=".data l then
    let rest := l.drop 7
    match srcWords.find? (fun w => ciStarts w rest) with
    | some w => some (7 + w.length + nonWsRun (rest.drop w.length))
    | none => none
  else none

/-- Matcher for the utm pattern of the source. The source regex is
utm_[a-z_]+= bsl [ ^ bsl s &]* : the escaped opening bracket makes the caret
a start-of-input anchor in the middle of the pattern, which can never hold
after the mandatory utm_ prefix has been consumed, so the pattern matches
nowhere and the replacement is the identity. -/
def utmMatch : List Char → Option Nat :=
  fun _ => none

/-- Characters matched by [a-z_] under the i flag. -/
def isNameChar (c : Char) : Bool :=
  c.isAlpha || c = '_'

/-- Characters matched by bsl w, that is [A-Za-z0-9_]. -/
def isWordChar (c : Char) : Bool :=
  c.isAlpha || c.isDigit || c = '_'

/-- Matcher for ref=[^ bsl s &]* with the i flag. -/
def refMatch (l : List Char) : Option Nat :=
  if ciStarts "ref=".data l then
    some (4 + (l.drop 4 |>.takeWhile (fun c => !isWs c && !(c = '&'))).length)
  else none

/-- Parser for one [a-z_]+= bsl w+ pair, returning the number of characters
consumed. -/
def pairLen (l : List Char) : Option Nat :=
  let n1 := (l.takeWhile isNameChar).length
  if n1 = 0 then none
  else
    match l.drop n1 with
    | '=' :: rest2 =>
      let n2 := (rest2.takeWhile isWordChar).length
      if n2 = 0 then none else some (n1 + 1 + n2)
    | _ => none

/-- Scanner of the repeated (&[a-z_]+= bsl w+)* group, returning the number
of characters consumed. The skip counter moves past a parsed pair before
looking for the next ampersand. -/
def morePairsGo : Nat → List Char → Nat
  | _ + 1, [] => 0
  | skip + 1, _ :: cs => morePairsGo skip cs
  | 0, [] => 0
  | 0, c :: rest =>
    if c = '&' then
      match pairLen rest with
      | some k => 1 + k + morePairsGo k rest
      | none => 0
    else 0

/-- Greedy parser for the repeated (&[a-z_]+= bsl w+)* group, returning the
number of characters consumed. -/
def morePairs (l : List Char) : Nat :=
  morePairsGo 0 l

/-- Matcher for the query parameter pattern ? [a-z_]+= bsl w+ (&[a-z_]+= bsl w+)*
with the i flag. -/
def queryMatch (l : List Char) : Option Nat :=
  match l with
  | '?' :: rest =>
    match pairLen rest with
    | some k => some (1 + k + morePairs (rest.drop k))
    | none => none
  | _ => none

/-- Matcher for a case insensitive literal (patterns RSVP:, Read more:,
Click here:); the pattern is given lowercase. -/
def ciLitMatch (pat : List Char) (l : List Char) : Option Nat :=
  if ciStarts pat l then some pat.length else none

/-- Matcher for a case sensitive literal (the two ellipsis markers). -/
def litMatch (pat : List Char) (l : List Char) : Option Nat :=
  if litStarts pat l then some pat.length else none

/-- Step text.split(pipe)[0] || text of the source: the text before the
first pipe character, except that an empty first segment is falsy in
JavaScript, in which case the original text is kept. -/
def pipeHead (l : List Char) : List Char :=
  let h := l.takeWhile (fun c => !(c = '|'))
  if h.isEmpty then l else h

/-- Post-extraction cleaning pipeline of stripHtml, lines 124 to 149 of the
translation module: pipe truncation, URL and tracking removal, boilerplate
removal, whitespace normalisation. The parameter ext models the cheerio
body-text extraction of lines 116 to 122. -/
def stripPipeline (ext : String → String) (html : String) : List Char :=
  let text0 := (ext html).data
  let t1 := pipeHead text0
  let t2 := scrub urlMatch t1
  let t3 := scrub wwwMatch t2
  let t4 := scrub tcoMatch t3
  let t5 := scrub srcMatch t4
  let t6 := scrub utmMatch t5
  let t7 := scrub refMatch t6
  let t8 := scrub queryMatch t7
  let t9 := scrub (ciLitMatch "rsvp:".data) t8
  let t10 := scrub (ciLitMatch "read more:".data) t9
  let t11 := scrub (ciLitMatch "click here:".data) t10
  let t12 := scrub (litMatch "[…]".data) t11
  let t13 := scrub (litMatch "[...]".data) t12
  trimJS (nlSquash (collapseWs t13))

/-- Function stripHtml of the translation module: extract text, clean it,
and return the empty string when fewer than 10 characters remain. -/
def stripHtml (ext : String → String) (html : String) : String :=
  let text := stripPipeline ext html
  if text.length < 10 then "" else String.mk text

/-- Sentence terminators of the chunking regex [^.!?]+[.!?]+ . -/
def isTerm (c : Char) : Bool :=
  c = '.' || c = '!' || c = '?'

/-- Scanner for the global regex [^.!?]+[.!?]+ . The flag records whether a
terminator run is being consumed; acc holds the characters of the current
candidate match. Leading terminators match nothing; a trailing run without
a terminator is discarded, exactly as the regex leaves it unmatched. -/
def sentScan : Bool → List Char → List Char → List (List Char)
  | true, acc, [] => [acc]
  | false, _, [] => []
  | true, acc, c :: cs =>
    if isTerm c then sentScan true (acc ++ [c]) cs
    else acc :: sentScan false [c] cs
  | false, acc, c :: cs =>
    if isTerm c then
      if acc.isEmpty then sentScan false [] cs
      else sentScan true (acc ++ [c]) cs
    else sentScan false (acc ++ [c]) cs

/-- All matches of cleanText.match([^.!?]+[.!?]+ global), in order. -/
def sentencesOf (l : List Char) : List (List Char) :=
  sentScan false [] l

/-- Source expression cleanText.match(...) || [cleanText]: the sentence
list, or the whole text when the regex finds no match (a null match result
is falsy in JavaScript). -/
def sentenceSplit (cleanText : String) : List String :=
  let m := (sentencesOf cleanText.data).map String.mk
  if m.isEmpty then [cleanText] else m

/-- Chunk size threshold of the source, line 200. -/
def maxChunkSize : Nat := 500

/-- Greedy packing loop of the source, lines 207 to 217: extend the current
chunk while the concatenation stays within maxChunkSize, otherwise push the
current chunk (when non-empty) and start a new one from the sentence. -/
def packGo (currentChunk : String) (chunks : List String) : List String → List String
  | [] => if currentChunk == "" then chunks else chunks ++ [currentChunk]
  | sentence :: rest =>
    if (currentChunk ++ sentence).length ≤ maxChunkSize then
      packGo (currentChunk ++ sentence) chunks rest
    else
      packGo sentence (if currentChunk == "" then chunks else chunks ++ [currentChunk]) rest

/-- Chunker of translateToTurkish for long texts: sentence split followed
by greedy packing. -/
def chunkText (cleanText : String) : List String :=
  packGo "" [] (sentenceSplit cleanText)

/-- Errors observable at the boundary of a provider call or of a recursive
translation call: a thrown provider error, or the RangeError thrown when
the runtime stack is exhausted by the recursive chunk translation. -/
inductive TErr where
  | provider
  | stackOverflow
deriving DecidableEq

/-- One outbound provider call, with the text that was sent. -/
inductive Call where
  | google (text : String)
  | libre (text : String)
deriving DecidableEq

/-- Behaviour of the two external translation providers, as observed at
their call sites inside translateToTurkish: for a given input text each
call either returns a string or throws. -/
structure Env where
  translateWithGoogle : String → Except TErr String
  translateWithLibreTranslate : String → Except TErr String

/-- JavaScript String.prototype.toLowerCase, modelled characterwise; it
agrees with the runtime on the ASCII texts involved. -/
def lowerStr (s : String) : String :=
  String.mk (s.data.map Char.toLower)

/-- Acceptance test applied to a provider result, source lines 236 to 238
and 251 to 253: non-empty, different from the cleaned input ignoring case,
and longer than 10 characters. -/
def accept (t cleanText : String) : Bool :=
  !(t == "") && !(lowerStr t == lowerStr cleanText) && decide (10 < t.length)

/-- LibreTranslate fallback attempt, source lines 247 to 259: on an
accepted result return it, on a rejected result or a thrown error fall
through (the caller then returns the cleaned text). The done list carries
the provider calls already issued. -/
def libreAttempt (E : Env) (cleanText : String) (done : List Call) :
    Except TErr String × List Call :=
  match E.translateWithLibreTranslate cleanText with
  | .ok libreTranslation =>
    if accept libreTranslation cleanText then
      (.ok libreTranslation, done ++ [Call.libre cleanText])
    else (.ok cleanText, done ++ [Call.libre cleanText])
  | .error _ => (.ok cleanText, done ++ [Call.libre cleanText])

/-- Provider chain, source lines 231 to 263: try Google first, accept a
good result, otherwise (rejection or thrown error) fall through to
LibreTranslate, and finally to the cleaned text. -/
def googleAttempt (E : Env) (cleanText : String) : Except TErr String × List Call :=
  match E.translateWithGoogle cleanText with
  | .ok googleTranslation =>
    if accept googleTranslation cleanText then
      (.ok googleTranslation, [Call.google cleanText])
    else libreAttempt E cleanText [Call.google cleanText]
  | .error _ => libreAttempt E cleanText [Call.google cleanText]

/-- Sequential translation of the chunk list, source lines 220 to 224: each
chunk goes through the given recursive translation; a thrown error aborts
the loop and propagates (to the enclosing catch). Call lists accumulate in
order. -/
def runChunksWith (tr : String → Except TErr String × List Call) :
    List String → Except TErr (List String) × List Call
  | [] => (.ok [], [])
  | c :: cs =>
    match tr c with
    | (.ok s, calls1) =>
      match runChunksWith tr cs with
      | (.ok rest, calls2) => (.ok (s :: rest), calls1 ++ calls2)
      | (.error e, calls2) => (.error e, calls1 ++ calls2)
    | (.error e, calls1) => (.error e, calls1)

/-- Embedding of a JavaScript try/catch around a computation returning a
string: a thrown error is replaced by the handler result, keeping the
provider calls already made. -/
def tryCatch (x : Except TErr String × List Call) (h : Unit → String) :
    Except TErr String × List Call :=
  match x with
  | (.ok s, calls) => (.ok s, calls)
  | (.error _, calls) => (.ok (h ()), calls)

/-- Body of the try block of translateToTurkish, source lines 188 to 263:
empty or blank input is returned as is; input whose cleaned form is blank
is returned as is; long cleaned text is chunked and translated recursively;
short cleaned text goes through the provider chain. The recur parameter is
the recursive translation used for chunks. -/
def translateCore (E : Env) (ext : String → String)
    (recur : String → Except TErr String × List Call) (text : String) :
    Except TErr String × List Call :=
  if text == "" || trimS text == "" then (.ok text, [])
  else
    let cleanText := stripHtml ext text
    if cleanText == "" || trimS cleanText == "" then (.ok text, [])
    else if maxChunkSize < cleanText.length then
      match runChunksWith recur (chunkText cleanText) with
      | (.ok translatedChunks, calls) =>
        (.ok (String.intercalate " " translatedChunks), calls)
      | (.error e, calls) => (.error e, calls)
    else googleAttempt E cleanText

/-- Function translateToTurkish of the translation module. Fuel models the
runtime stack: a call with no fuel left is the call that throws RangeError.
With fuel available, the try body runs and any error it throws is caught by
the catch of line 264, which returns stripHtml(text). -/
def translateToTurkish (E : Env) (ext : String → String) :
    Nat → String → Except TErr String × List Call
  | 0 => fun _ => (.error .stackOverflow, [])
  | fuel + 1 => fun text =>
    tryCatch (translateCore E ext (translateToTurkish E ext fuel) text)
      (fun _ => stripHtml ext text)

/-- Collection step of Promise.all over the individual translation
outcomes: the list of values, or the first thrown error. -/
def collectOk : List (Except TErr String) → Except TErr (List String)
  | [] => .ok []
  | .ok s :: rs =>
    match collectOk rs with
    | .ok l => .ok (s :: l)
    | .error e => .error e
  | .error e :: _ => .error e

/-- Function translateBatch of the translation module, lines 273 to 283:
translate every text, keep the order; if the batch operation throws, return
the original input list unchanged. -/
def translateBatch (E : Env) (ext : String → String) (fuel : Nat)
    (texts : List String) : List String :=
  match collectOk (texts.map (fun text => (translateToTurkish E ext fuel text).1)) with
  | .ok translations => translations
  | .error _ => texts

/-- Value of an ok outcome; the default branch is never reached when the
outcome is known to be ok. -/
def okStr : Except TErr String → String
  | .ok s => s
  | .error _ => ""

/-- Value of an ok translation result. -/
def okValue (r : Except TErr String × List Call) : String :=
  okStr r.1

/-- Result record of the summarize functions. -/
structure SummaryWithSentiment where
  summary : String
  sentiment : String
deriving DecidableEq

/-- Positive keyword alternatives of the sentiment regex, in source order. -/
def positiveWords : List String :=
  ["up", "rise", "gain", "bull", "surge", "rally", "boost", "grow",
   "positive", "profit", "success", "launch", "partner", "adoption"]

/-- Negative keyword alternatives of the sentiment regex, in source order. -/
def negativeWords : List String :=
  ["down", "fall", "drop", "bear", "crash", "decline", "loss", "negative",
   "hack", "scam", "fail", "lawsuit", "ban", "regulate"]

/-- Word boundary keyword search for content.match(bsl b(w1|...|wn) bsl b):
some keyword occurs at a position not preceded and not followed by a word
character. The prev flag tells whether the previous character is a word
character. -/
def hasWordFrom (ws : List (List Char)) : Bool → List Char → Bool
  | _, [] => false
  | prevWord, c :: cs =>
    (!prevWord &&
      ws.any (fun w =>
        litStarts w (c :: cs) &&
        (match (c :: cs).drop w.length with
         | [] => true
         | d :: _ => !isWordChar d))) ||
    hasWordFrom ws (isWordChar c) cs

/-- Keyword test on a content string (the content is already lowercased by
the caller, and the keywords are lowercase, so the i flag of the source
regex is absorbed). -/
def hasKeyword (ws : List String) (content : String) : Bool :=
  hasWordFrom (ws.map String.data) false content.data

/-- Content string of the sentiment check, source line 325: template
concatenation of the title, a space, and the optional body (an absent or
empty body contributes the empty string), lowercased. -/
def contentOf (title : String) (btext : Option String) : String :=
  lowerStr (title ++ " " ++ btext.getD "")

/-- Keyword sentiment of the summarize functions, lines 325 to 336 and 355
to 366: start neutral, switch to positive on a positive keyword match, then
switch to negative on a negative keyword match (the negative check runs
last and wins). -/
def analyzeSentiment (title : String) (btext : Option String) : String :=
  let content := contentOf title btext
  let s1 := if hasKeyword positiveWords content then "positive" else "neutral"
  if hasKeyword negativeWords content then "negative" else s1

/-- Function summarizeInEnglish, lines 352 to 376: the summary is the title
itself, with the keyword sentiment. The try body cannot throw, so the catch
branch is dead. -/
def summarizeInEnglish (title : String) (btext : Option String) : SummaryWithSentiment :=
  ⟨title, analyzeSentiment title btext⟩

/-- Function summarizeAndTranslate, lines 319 to 346: translate the title,
keep the translation when it is longer than 8 characters, else keep the
title; the sentiment is the keyword sentiment. A thrown error (out of fuel
before the inner catch can run) lands in the catch of line 342, which
returns the title with neutral sentiment. -/
def summarizeAndTranslate (E : Env) (ext : String → String) (fuel : Nat)
    (title : String) (btext : Option String) : SummaryWithSentiment :=
  match translateToTurkish E ext fuel title with
  | (.ok translatedTitle, _) =>
    ⟨if !(translatedTitle == "") && decide (8 < translatedTitle.length) then
       translatedTitle
     else title,
     analyzeSentiment title btext⟩
  | (.error _, _) => ⟨title, "neutral"⟩

/-- Shape of the text field of the JSON request body at the translate
endpoint: absent, present with a non-string value, or a string. -/
inductive TextField where
  | missing
  | notStr
  | strVal (s : String)
deriving DecidableEq

/-- Request body of the endpoint: malformed JSON or a well formed object. -/
inductive RtBody where
  | malformed
  | wellFormed (f : TextField)
deriving DecidableEq

/-- Errors that can escape the endpoint handler: a JSON parse failure, the
TypeError thrown by reading an already consumed request body, and the
TypeError from cleaning a non-string value. -/
inductive RtErr where
  | parseFail
  | bodyUsed
  | typeErr
deriving DecidableEq

/-- JSON HTTP response of the endpoint. -/
structure RtResp where
  status : Nat
  error : Option String
  translation : Option String
deriving DecidableEq

/-- Standard fetch semantics of request.json(): the body stream can be
consumed once; a second read throws. A parse failure also consumes the
body. The returned flag is the new consumed state. -/
def requestJson (b : RtBody) (used : Bool) : Except RtErr TextField × Bool :=
  if used then (.error .bodyUsed, true)
  else
    match b with
    | .malformed => (.error .parseFail, true)
    | .wellFormed f => (.ok f, true)

/-- Sanitizer stripHtml of route.ts, lines 9 to 24: extract text and
normalise whitespace. There is no pipe, URL or minimum length handling in
this copy. -/
def stripHtmlRoute (ext : String → String) (html : String) : String :=
  String.mk (trimJS (nlSquash (collapseWs (ext html).data)))

/-- Catch block of the endpoint, lines 102 to 110: it rebuilds the response
from (await request.json()).text, reading the request body a second time.
With the body already consumed this read throws, and that error escapes the
handler. -/
def postCatch (b : RtBody) (ext : String → String) (used : Bool) : Except RtErr RtResp :=
  match requestJson b used with
  | (.error e, _) => .error e
  | (.ok f, _) =>
    match f with
    | .strVal s => .ok ⟨500, some "Translation failed", some (stripHtmlRoute ext s)⟩
    | _ => .error .typeErr

/-- Handler POST of route.ts, lines 67 to 112. G models translateWithGoogle
of the route, which returns null (none) on any provider failure, and the
joined fragments otherwise (possibly the empty string, which the handler
also treats as a failure). -/
def POST (G : String → Option String) (ext : String → String) (b : RtBody) :
    Except RtErr RtResp :=
  match requestJson b false with
  | (.error _, used) => postCatch b ext used
  | (.ok f, used) =>
    match f with
    | .missing => .ok ⟨400, some "Invalid text provided", none⟩
    | .notStr => .ok ⟨400, some "Invalid text provided", none⟩
    | .strVal text =>
      if trimS text == "" then .ok ⟨400, some "Invalid text provided", none⟩
      else
        let cleanText := stripHtmlRoute ext text
        if trimS cleanText == "" then .ok ⟨200, none, some text⟩
        else
          match G cleanText with
          | none => postCatch b ext used
          | some translation =>
            if translation == "" then postCatch b ext used
            else .ok ⟨200, none, some (stripHtmlRoute ext translation)⟩

/-- Property: the matcher fires at no position of the list. This is the
formal reading of a text being free of the corresponding noise pattern. -/
def noMatch (f : List Char → Option Nat) (l : List Char) : Bool :=
  l.tails.all (fun t => (f t).isNone)

/-- Property: every whitespace character is a plain space not followed by
another whitespace character, so whitespace collapsing changes nothing. -/
def wsNormalized : List Char → Bool
  | [] => true
  | c :: cs =>
    (!isWs c || (c = ' ' && cs.head?.all (fun d => !isWs d))) && wsNormalized cs

/-- Property: the first and the last character, when present, are not
whitespace, so trimming changes nothing. -/
def trimmedB (l : List Char) : Bool :=
  l.head?.all (fun c => !isWs c) && l.getLast?.all (fun c => !isWs c)

/-- Property formalising a text free of markup noise: no pattern of any of
the cleaning regexes occurs anywhere, no pipe character occurs, whitespace
is already collapsed and the ends are already trimmed. The unsatisfiable
utm pattern needs no condition. -/
def isClean (x : String) : Prop :=
  noMatch urlMatch x.data = true ∧ noMatch wwwMatch x.data = true ∧
  noMatch tcoMatch x.data = true ∧ noMatch srcMatch x.data = true ∧
  noMatch refMatch x.data = true ∧ noMatch queryMatch x.data = true ∧
  noMatch (ciLitMatch "rsvp:".data) x.data = true ∧
  noMatch (ciLitMatch "read more:".data) x.data = true ∧
  noMatch (ciLitMatch "click here:".data) x.data = true ∧
  noMatch (litMatch "[…]".data) x.data = true ∧
  noMatch (litMatch "[...]".data) x.data = true ∧
  x.data.contains '|' = false ∧ wsNormalized x.data = true ∧ trimmedB x.data = true

instance (x : String) : Decidable (isClean x) := by
  unfold isClean
  exact inferInstance

/-- Test that an outcome is a returned string rather than a thrown error. -/
def exceptOk : Except TErr String → Bool
  | .ok _ => true
  | .error _ => false

/-- Part of a text covered by the sentence regex when it matches at all:
drop the leading run of terminators (which can begin no match) and the
trailing run of non-terminators (which no match can close). -/
def coveredCore (l : List Char) : List Char :=
  (l.dropWhile isTerm).rdropWhile (fun c => !isTerm c)

/-- Part of a cleaned text covered by the chunks: the whole text when the
sentence regex matches nowhere (the code then chunks the whole text), and
the matched part otherwise. -/
def coveredPart (l : List Char) : List Char :=
  if coveredCore l = [] then l else coveredCore l

/-- Property: a provider call fails the chain step, by throwing or by
returning a result that the acceptance test rejects. -/
def providerFails (r : Except TErr String) (cleanText : String) : Prop :=
  ∀ s, r = .ok s → accept s cleanText = false

/-- Identity extraction: the fixture texts below contain no markup, and
cheerio body-text extraction leaves markup-free text unchanged. -/
def extId : String → String := id

/-- Environment in which both providers throw on every input. -/
def envFail : Env :=
  ⟨fun _ => .error .provider, fun _ => .error .provider⟩

/-- Environment in which Google echoes its input untranslated and
LibreTranslate throws. -/
def envEcho : Env :=
  ⟨fun s => .ok s, fun _ => .error .provider⟩

/-- Fixture: a clean sentence of 38 characters. -/
def cleanSentence : String := "this is a sample sentence for testing."

/-- Fixture: a clean title used for the echo scenario. -/
def echoTitle : String := "hello there world sample."

/-- Fixture: markup whose text content is shorter than 10 characters. -/
def shortHtml : String := "<p>hi</p>"

/-- Fixture: a clean capitalised sentence for the idempotence witness. -/
def cleanSample : String := "This is a clean sample sentence."

/-- Fixture: a single sentence of 502 characters, longer than the chunk
threshold. -/
def longSentence : String := String.mk (List.replicate 501 'a' ++ ['.'])

/-- Fixture: a long text whose trailing fragment has no sentence
terminator. -/
def fragText : String := String.mk (List.replicate 499 'a' ++ ". b".data)

/-- Fixture: a long text of 60 short sentences. -/
def manyText : String := String.join (List.replicate 60 "aaaa aaaa. ")

/-!
Helper lemmas about the sanitizer.
-/

theorem scrub_id (f : List Char → Option Nat) :
    ∀ l, noMatch f l = true → scrub f l = l := by
  intro l
  induction l with
  | nil => intro _; rfl
  | cons c cs ih =>
    intro h
    simp only [noMatch, List.tails_cons, List.all_cons, Bool.and_eq_true,
      Option.isNone_iff_eq_none] at h
    obtain ⟨h1, h2⟩ := h
    have hcs : noMatch f cs = true := by
      simp only [noMatch]
      exact h2
    show scrubGo f 0 (c :: cs) = c :: cs
    rw [scrubGo, h1]
    exact congrArg (c :: ·) (ih hcs)

theorem scrub_utm : ∀ l, scrub utmMatch l = l := by
  intro l
  refine scrub_id utmMatch l ?_
  simp [noMatch, utmMatch, List.all_eq_true]

theorem collapseGo_id : ∀ l, wsNormalized l = true →
    (collapseGo false l = l ∧
      (l.head?.all (fun d => !isWs d) = true → collapseGo true l = l)) := by
  intro l
  induction l with
  | nil => intro _; exact ⟨rfl, fun _ => rfl⟩
  | cons c cs ih =>
    intro h
    simp only [wsNormalized, Bool.and_eq_true] at h
    obtain ⟨h1, h2⟩ := h
    by_cases hws : isWs c = true
    · have h1b : c = ' ' ∧ cs.head?.all (fun d => !isWs d) = true := by
        rcases Bool.or_eq_true_iff.mp h1 with hh | hh
        · rw [hws] at hh; simp at hh
        · have := Bool.and_eq_true_iff.mp hh
          exact ⟨by simpa using this.1, this.2⟩
      constructor
      · rw [collapseGo, if_pos hws, if_neg (by simp)]
        rw [(ih h2).2 h1b.2, h1b.1]
      · intro habs
        rw [List.head?_cons] at habs
        simp [Option.all, hws] at habs
    · simp only [Bool.not_eq_true] at hws
      constructor
      · rw [collapseGo, if_neg (by simp [hws])]
        exact congrArg (c :: ·) (ih h2).1
      · intro _
        rw [collapseGo, if_neg (by simp [hws])]
        exact congrArg (c :: ·) (ih h2).1

theorem collapseWs_id (l : List Char) (h : wsNormalized l = true) :
    collapseWs l = l :=
  (collapseGo_id l h).1

theorem nlSquash_id : ∀ l : List Char, '\n' ∉ l → nlSquash l = l := by
  intro l
  induction l with
  | nil => intro _; rfl
  | cons c cs ih =>
    intro h
    have hc : ¬ (c = '\n') := fun hc => h (by simp [hc])
    show nlGo 0 (c :: cs) = c :: cs
    rw [nlGo, if_neg hc]
    exact congrArg (c :: ·) (ih (fun hm => h (List.mem_cons_of_mem c hm)))

theorem wsNormalized_no_nl : ∀ l, wsNormalized l = true → '\n' ∉ l := by
  intro l
  induction l with
  | nil => intro _ h; cases h
  | cons c cs ih =>
    intro h hm
    simp only [wsNormalized, Bool.and_eq_true] at h
    obtain ⟨h1, h2⟩ := h
    rcases List.mem_cons.mp hm with hm | hm
    · rw [← hm] at h1
      rcases Bool.or_eq_true_iff.mp h1 with hh | hh
      · simp [isWs] at hh
      · have hsp : ('\n' = ' ') := by simpa using (Bool.and_eq_true_iff.mp hh).1
        simp at hsp
    · exact ih h2 hm

theorem dropWhile_head_false (p : Char → Bool) :
    ∀ (l : List Char) (c : Char) (r : List Char),
      List.dropWhile p l = c :: r → p c = false := by
  intro l
  induction l with
  | nil => intro c r h; simp at h
  | cons a as ih =>
    intro c r h
    rw [List.dropWhile_cons] at h
    by_cases ha : p a = true
    · rw [if_pos ha] at h
      exact ih c r h
    · rw [if_neg ha] at h
      cases h
      simpa using ha

theorem trimJS_idem (l : List Char) : trimJS (trimJS l) = trimJS l := by
  unfold trimJS
  have hdw : (((l.dropWhile isWs).rdropWhile isWs).dropWhile isWs)
      = (l.dropWhile isWs).rdropWhile isWs := by
    rcases hB : (l.dropWhile isWs).rdropWhile isWs with _ | ⟨c, r⟩
    · rfl
    · have hpre := List.rdropWhile_prefix isWs (l.dropWhile isWs)
      rw [hB] at hpre
      obtain ⟨t, ht⟩ := hpre
      have hA : List.dropWhile isWs l = c :: (r ++ t) := by
        rw [← ht]; rfl
      have hc : isWs c = false := dropWhile_head_false isWs l c (r ++ t) hA
      simp [List.dropWhile_cons, hc]
  rw [hdw, List.rdropWhile_idempotent]

theorem trimJS_fix (l : List Char) (h : trimmedB l = true) : trimJS l = l := by
  cases l with
  | nil => rfl
  | cons c cs =>
    simp only [trimmedB, List.head?_cons, Bool.and_eq_true] at h
    obtain ⟨h1, h2⟩ := h
    have hc : isWs c = false := by simpa [Option.all] using h1
    have hdw : (c :: cs).dropWhile isWs = c :: cs := by
      simp [List.dropWhile_cons, hc]
    unfold trimJS
    rw [hdw]
    apply List.rdropWhile_eq_self_iff.mpr
    intro hl
    have hlast := List.getLast?_eq_getLast (c :: cs) hl
    rw [hlast] at h2
    simpa [Option.all] using h2

theorem pipeHead_id (l : List Char) (h : '|' ∉ l) : pipeHead l = l := by
  have htw : l.takeWhile (fun c => !(c = '|')) = l := by
    induction l with
    | nil => rfl
    | cons c cs ih =>
      have hc : ¬ (c = '|') := fun hc => h (by simp [hc])
      rw [List.takeWhile_cons, if_pos (by simpa using hc)]
      rw [ih (fun hm => h (List.mem_cons_of_mem c hm))]
  rw [pipeHead]
  simp only [htw]
  cases l <;> simp

theorem stripPipeline_fix (ext : String → String) (x : String)
    (hc : isClean x) (he : ext x = x) : stripPipeline ext x = x.data := by
  obtain ⟨h1, h2, h3, h4, h5, h6, h7, h8, h9, h10, h11, hpipe, hws, htrim⟩ := hc
  have hpipe2 : '|' ∉ x.data := by
    intro hm
    have hc2 : x.data.contains '|' = true := List.elem_iff.mpr hm
    rw [hc2] at hpipe
    cases hpipe
  simp only [stripPipeline]
  rw [he, pipeHead_id _ hpipe2, scrub_id _ _ h1, scrub_id _ _ h2, scrub_id _ _ h3,
    scrub_id _ _ h4, scrub_utm, scrub_id _ _ h5, scrub_id _ _ h6, scrub_id _ _ h7,
    scrub_id _ _ h8, scrub_id _ _ h9, scrub_id _ _ h10, scrub_id _ _ h11,
    collapseWs_id _ hws, nlSquash_id _ (wsNormalized_no_nl _ hws), trimJS_fix _ htrim]

theorem stripHtml_clean (ext : String → String) (x : String)
    (hc : isClean x) (he : ext x = x) :
    stripHtml ext x = if x.length < 10 then "" else x := by
  unfold stripHtml
  rw [stripPipeline_fix ext x hc he]
  rfl

theorem stripHtml_emptyIn (ext : String → String) (he0 : ext "" = "") :
    stripHtml ext "" = "" := by
  simp only [stripHtml, stripPipeline, he0]
  rfl

theorem stripPipeline_as_trim (ext : String → String) (x : String) :
    ∃ t, stripPipeline ext x = trimJS t :=
  ⟨_, rfl⟩

theorem trimS_stripHtml (ext : String → String) (x : String) :
    trimS (stripHtml ext x) = stripHtml ext x := by
  obtain ⟨t, ht⟩ := stripPipeline_as_trim ext x
  unfold stripHtml
  rw [ht]
  by_cases h : (trimJS t).length < 10
  · rw [if_pos h]; rfl
  · rw [if_neg h]
    simp only [trimS]
    rw [trimJS_idem]

/-!
Helper lemmas about the translation pipeline.
-/

theorem translate_succ (E : Env) (ext : String → String) (fuel : Nat) (text : String) :
    translateToTurkish E ext (fuel + 1) text
      = tryCatch (translateCore E ext (translateToTurkish E ext fuel) text)
          (fun _ => stripHtml ext text) := rfl

theorem tryCatch_isOk (x : Except TErr String × List Call) (h : Unit → String) :
    exceptOk (tryCatch x h).1 = true := by
  rcases x with ⟨r, calls⟩
  cases r <;> rfl

theorem tryCatch_of_ok (x : Except TErr String × List Call) (h : Unit → String)
    (s : String) (hx : x.1 = .ok s) : tryCatch x h = x := by
  rcases x with ⟨r, calls⟩
  simp only at hx
  rw [hx]
  rfl

theorem exceptOk_exists (r : Except TErr String) (h : exceptOk r = true) :
    ∃ s, r = .ok s := by
  cases r with
  | ok s => exact ⟨s, rfl⟩
  | error e => simp [exceptOk] at h

theorem translate_isOk (E : Env) (ext : String → String) (fuel : Nat) (text : String) :
    exceptOk (translateToTurkish E ext (fuel + 1) text).1 = true := by
  rw [translate_succ]
  exact tryCatch_isOk _ _

theorem translate_ok_exists (E : Env) (ext : String → String) (fuel : Nat) (text : String) :
    ∃ s, (translateToTurkish E ext (fuel + 1) text).1 = .ok s :=
  exceptOk_exists _ (translate_isOk E ext fuel text)

theorem translate_blank (E : Env) (ext : String → String) (fuel : Nat) (text : String)
    (h : text = "" ∨ trimS text = "" ∨ stripHtml ext text = ""
         ∨ trimS (stripHtml ext text) = "") :
    translateToTurkish E ext (fuel + 1) text = (.ok text, []) := by
  rw [translate_succ]
  simp only [translateCore]
  by_cases hb1 : (text == "" || trimS text == "") = true
  · rw [if_pos hb1]
    rfl
  · rw [if_neg hb1]
    have hb2 : (stripHtml ext text == "" || trimS (stripHtml ext text) == "") = true := by
      rcases h with h | h | h | h
      · exact absurd (by simp [h]) hb1
      · exact absurd (by simp [h]) hb1
      · simp [h]
      · simp [h]
    rw [if_pos hb2]
    rfl

theorem libreAttempt_fst (E : Env) (c : String) (done : List Call) :
    ∃ s, (libreAttempt E c done).1 = .ok s := by
  unfold libreAttempt
  cases hE : E.translateWithLibreTranslate c with
  | ok t =>
    simp only []
    by_cases ha : accept t c = true
    · rw [if_pos ha]
      exact ⟨t, rfl⟩
    · rw [if_neg ha]
      exact ⟨c, rfl⟩
  | error e => exact ⟨c, rfl⟩

theorem googleAttempt_fst (E : Env) (c : String) :
    ∃ s, (googleAttempt E c).1 = .ok s := by
  unfold googleAttempt
  cases hE : E.translateWithGoogle c with
  | ok t =>
    simp only []
    by_cases ha : accept t c = true
    · rw [if_pos ha]
      exact ⟨t, rfl⟩
    · rw [if_neg ha]
      exact libreAttempt_fst E c _
  | error e => exact libreAttempt_fst E c _

theorem not_blank_cond (text : String) (h1 : trimS text ≠ "") :
    (text == "" || trimS text == "") = false := by
  have htne : text ≠ "" := fun hh => h1 (by rw [hh]; rfl)
  simp [htne, h1]

theorem clean_cond (ext : String → String) (text : String)
    (h2 : stripHtml ext text ≠ "") :
    (stripHtml ext text == "" || trimS (stripHtml ext text) == "") = false := by
  have h3 : trimS (stripHtml ext text) ≠ "" := by
    rw [trimS_stripHtml]
    exact h2
  simp [h2, h3]

theorem translate_short (E : Env) (ext : String → String) (fuel : Nat) (text : String)
    (h1 : trimS text ≠ "") (h2 : stripHtml ext text ≠ "")
    (h3 : (stripHtml ext text).length ≤ maxChunkSize) :
    translateToTurkish E ext (fuel + 1) text = googleAttempt E (stripHtml ext text) := by
  rw [translate_succ]
  simp only [translateCore]
  rw [not_blank_cond text h1]
  simp only [Bool.false_eq_true, if_false]
  rw [clean_cond ext text h2]
  simp only [Bool.false_eq_true, if_false]
  rw [if_neg (Nat.not_lt.mpr h3)]
  obtain ⟨s, hs⟩ := googleAttempt_fst E (stripHtml ext text)
  exact tryCatch_of_ok _ _ s hs

theorem runChunks_ok (tr : String → Except TErr String × List Call) :
    ∀ l : List String, (∀ c ∈ l, ∃ s, (tr c).1 = .ok s) →
      runChunksWith tr l
        = (.ok (l.map (fun c => okValue (tr c))),
           (l.map (fun c => (tr c).2)).flatten) := by
  intro l
  induction l with
  | nil => intro _; rfl
  | cons c cs ih =>
    intro h
    obtain ⟨s, hs⟩ := h c (List.mem_cons_self c cs)
    rcases htr : tr c with ⟨r, calls⟩
    rw [htr] at hs
    simp only at hs
    rw [hs] at htr
    have ihh := ih (fun d hd => h d (List.mem_cons_of_mem c hd))
    simp only [runChunksWith, htr, ihh, List.map_cons, List.flatten_cons]
    simp [okValue, okStr, htr]

theorem translate_long (E : Env) (ext : String → String) (fuel : Nat) (text : String)
    (h1 : trimS text ≠ "") (hlen : maxChunkSize < (stripHtml ext text).length) :
    translateToTurkish E ext (fuel + 2) text
      = (.ok (String.intercalate " "
            ((chunkText (stripHtml ext text)).map
              (fun c => okValue (translateToTurkish E ext (fuel + 1) c)))),
         ((chunkText (stripHtml ext text)).map
            (fun c => (translateToTurkish E ext (fuel + 1) c).2)).flatten) := by
  have h2 : stripHtml ext text ≠ "" := by
    intro hh
    rw [hh] at hlen
    simp [maxChunkSize] at hlen
  rw [translate_succ]
  simp only [translateCore]
  rw [not_blank_cond text h1]
  simp only [Bool.false_eq_true, if_false]
  rw [clean_cond ext text h2]
  simp only [Bool.false_eq_true, if_false]
  rw [if_pos hlen]
  rw [runChunks_ok _ _ (fun c _ => translate_ok_exists E ext fuel c)]
  rfl

/-!
Helper lemmas about the chunker: what part of the cleaned text the matched
sentences cover, and that greedy packing preserves concatenation.
-/

theorem dropWhile_append_unit (p : Char → Bool) (l : List Char) (c : Char)
    (hc : p c = false) :
    List.dropWhile p (l ++ [c]) = List.dropWhile p l ++ [c] := by
  induction l with
  | nil => simp [List.dropWhile_cons, hc]
  | cons a as ih =>
    by_cases ha : p a = true
    · simp only [List.cons_append, List.dropWhile_cons, ha, if_true]
      exact ih
    · simp only [Bool.not_eq_true] at ha
      simp [List.dropWhile_cons, ha]

theorem dropWhile_append_ne (p : Char → Bool) (l1 l2 : List Char)
    (h : List.dropWhile p l1 ≠ []) :
    List.dropWhile p (l1 ++ l2) = List.dropWhile p l1 ++ l2 := by
  induction l1 with
  | nil => exact absurd rfl h
  | cons a as ih =>
    by_cases ha : p a = true
    · rw [List.dropWhile_cons, if_pos ha] at h
      simp only [List.cons_append, List.dropWhile_cons, ha, if_true]
      exact ih h
    · simp only [Bool.not_eq_true] at ha
      simp [List.dropWhile_cons, ha]

theorem rdropWhile_cons_keep (cs : List Char) (c : Char) (hc : isTerm c = true) :
    (c :: cs).rdropWhile (fun x => !isTerm x) = c :: cs.rdropWhile (fun x => !isTerm x) := by
  unfold List.rdropWhile
  rw [List.reverse_cons, dropWhile_append_unit _ _ _ (by simp [hc])]
  rw [List.reverse_append]
  rfl

theorem rdropWhile_cons_of_term_mem (cs : List Char) (c : Char)
    (h : ∃ x ∈ cs, isTerm x = true) :
    (c :: cs).rdropWhile (fun x => !isTerm x) = c :: cs.rdropWhile (fun x => !isTerm x) := by
  obtain ⟨x, hx, hxt⟩ := h
  have hne : List.dropWhile (fun x => !isTerm x) cs.reverse ≠ [] := by
    intro hdw
    have := List.dropWhile_eq_nil_iff.mp hdw x (by simpa using hx)
    rw [hxt] at this
    simp at this
  unfold List.rdropWhile
  rw [List.reverse_cons, dropWhile_append_ne _ _ _ hne]
  rw [List.reverse_append]
  rfl

theorem rdropWhile_nonTerm_nil (l : List Char) (h : l.any isTerm = false) :
    l.rdropWhile (fun x => !isTerm x) = [] := by
  apply List.rdropWhile_eq_nil_iff.mpr
  intro x hx
  have := List.any_eq_false.mp h x hx
  simp [this]

theorem sentScan_join : ∀ n l, l.length ≤ n →
    ((∀ acc : List Char,
        (sentScan true acc l).flatten = acc ++ l.rdropWhile (fun x => !isTerm x)) ∧
     (∀ acc : List Char, acc ≠ [] →
        (sentScan false acc l).flatten
          = if l.any isTerm then acc ++ l.rdropWhile (fun x => !isTerm x) else [])) := by
  intro n
  induction n with
  | zero =>
    intro l hl
    have : l = [] := List.length_eq_zero.mp (Nat.le_zero.mp hl)
    subst this
    constructor
    · intro acc
      simp [sentScan, List.rdropWhile]
    · intro acc _
      simp [sentScan]
  | succ n ih =>
    intro l hl
    cases l with
    | nil =>
      constructor
      · intro acc
        simp [sentScan, List.rdropWhile]
      · intro acc _
        simp [sentScan]
    | cons c cs =>
      have hcs : cs.length ≤ n := by
        simpa [Nat.succ_le_succ_iff] using hl
      constructor
      · intro acc
        by_cases hc : isTerm c = true
        · rw [sentScan, if_pos hc, (ih cs hcs).1 (acc ++ [c]),
            rdropWhile_cons_keep cs c hc]
          simp
        · rw [sentScan, if_neg hc]
          simp only [List.flatten_cons]
          rw [(ih cs hcs).2 [c] (by simp)]
          by_cases hany : cs.any isTerm = true
          · rw [if_pos hany,
              rdropWhile_cons_of_term_mem cs c (by simpa [List.any_eq_true] using hany)]
            simp
          · simp only [Bool.not_eq_true] at hany
            rw [if_neg (by simp [hany])]
            have h1 : (c :: cs).any isTerm = false := by
              simp only [List.any_cons, Bool.or_eq_false_iff]
              exact ⟨by simpa using hc, hany⟩
            rw [rdropWhile_nonTerm_nil _ h1]
      · intro acc hacc
        by_cases hc : isTerm c = true
        · rw [sentScan, if_pos hc, if_neg (by simpa using hacc),
            (ih cs hcs).1 (acc ++ [c]), rdropWhile_cons_keep cs c hc]
          have hany : (c :: cs).any isTerm = true := by
            simp [List.any_cons, hc]
          rw [if_pos hany]
          simp
        · rw [sentScan, if_neg hc, (ih cs hcs).2 (acc ++ [c]) (by simp)]
          have hany2 : (c :: cs).any isTerm = cs.any isTerm := by
            simp [List.any_cons, show isTerm c = false by simpa using hc]
          rw [hany2]
          by_cases hany : cs.any isTerm = true
          · rw [if_pos hany, if_pos hany,
              rdropWhile_cons_of_term_mem cs c (by simpa [List.any_eq_true] using hany)]
            simp
          · simp only [Bool.not_eq_true] at hany
            rw [if_neg (by simp [hany]), if_neg (by simp [hany])]

theorem sentencesOf_join : ∀ l, (sentencesOf l).flatten = coveredCore l := by
  intro l
  induction l with
  | nil => rfl
  | cons c cs ih =>
    unfold sentencesOf at ih ⊢
    by_cases hc : isTerm c = true
    · rw [sentScan, if_pos hc, if_pos (by simp)]
      rw [ih]
      unfold coveredCore
      rw [List.dropWhile_cons, if_pos hc]
    · rw [sentScan, if_neg hc]
      simp only [List.nil_append]
      unfold coveredCore
      rw [List.dropWhile_cons, if_neg (by simp [hc])]
      have h1 := (sentScan_join cs.length cs (Nat.le_refl _)).2 [c] (by simp)
      rw [h1]
      by_cases hany : cs.any isTerm = true
      · rw [if_pos hany,
          rdropWhile_cons_of_term_mem cs c (by simpa [List.any_eq_true] using hany)]
        simp
      · simp only [Bool.not_eq_true] at hany
        rw [if_neg (by simp [hany])]
        have h2 : (c :: cs).any isTerm = false := by
          simp only [List.any_cons, Bool.or_eq_false_iff]
          exact ⟨by simpa using hc, hany⟩
        rw [rdropWhile_nonTerm_nil _ h2]

theorem sentScan_ne_nil :
    ∀ (l : List Char) (flag : Bool) (acc : List Char), (flag = true → acc ≠ []) →
      ∀ x ∈ sentScan flag acc l, x ≠ [] := by
  intro l
  induction l with
  | nil =>
    intro flag acc hf x hx
    cases flag with
    | true =>
      simp only [sentScan, if_pos rfl] at hx
      rcases List.mem_singleton.mp hx with rfl
      exact hf rfl
    | false => simp [sentScan] at hx
  | cons c cs ih =>
    intro flag acc hf x hx
    cases flag with
    | true =>
      rw [sentScan] at hx
      by_cases hc : isTerm c = true
      · rw [if_pos hc] at hx
        exact ih true (acc ++ [c]) (fun _ => by simp) x hx
      · rw [if_neg hc] at hx
        rcases List.mem_cons.mp hx with rfl | hx2
        · exact hf rfl
        · exact ih false [c] (by simp) x hx2
    | false =>
      rw [sentScan] at hx
      by_cases hc : isTerm c = true
      · rw [if_pos hc] at hx
        by_cases hacc : acc.isEmpty = true
        · rw [if_pos hacc] at hx
          exact ih false [] (by simp) x hx
        · rw [if_neg hacc] at hx
          exact ih true (acc ++ [c]) (fun _ => by simp) x hx
      · rw [if_neg hc] at hx
        exact ih false (acc ++ [c]) (by simp) x hx

theorem sentencesOf_nil_iff (l : List Char) :
    sentencesOf l = [] ↔ coveredCore l = [] := by
  constructor
  · intro h
    rw [← sentencesOf_join, h]
    rfl
  · intro h
    rcases hs : sentencesOf l with _ | ⟨x, rest⟩
    · rfl
    · exfalso
      have hx : x ≠ [] :=
        sentScan_ne_nil l false [] (by simp) x
          (by rw [show sentScan false [] l = sentencesOf l from rfl, hs]; exact List.mem_cons_self x rest)
      have hj := sentencesOf_join l
      rw [hs, h] at hj
      simp only [List.flatten_cons] at hj
      exact hx (List.append_eq_nil.mp hj).1

theorem packGo_flatten : ∀ (rest : List String) (cur : String) (acc : List String),
    ((packGo cur acc rest).map String.data).flatten
      = (acc.map String.data).flatten ++ cur.data ++ (rest.map String.data).flatten := by
  intro rest
  induction rest with
  | nil =>
    intro cur acc
    rw [packGo]
    by_cases hcur : (cur == "") = true
    · have hc : cur = "" := by simpa using hcur
      rw [if_pos hcur, hc]
      simp
    · rw [if_neg hcur]
      simp [List.flatten_append]
  | cons s rest ih =>
    intro cur acc
    rw [packGo]
    by_cases hfit : (cur ++ s).length ≤ maxChunkSize
    · rw [if_pos hfit, ih]
      simp [String.data_append, List.append_assoc]
    · rw [if_neg hfit, ih]
      by_cases hcur : (cur == "") = true
      · have hc : cur = "" := by simpa using hcur
        rw [if_pos hcur, hc]
        simp [List.append_assoc]
      · rw [if_neg hcur]
        simp [List.flatten_append, List.append_assoc]

theorem chunkText_flatten (s : String) :
    ((chunkText s).map String.data).flatten = coveredPart s.data := by
  unfold chunkText
  rw [packGo_flatten]
  simp only [List.map_nil, List.flatten_nil, List.nil_append]
  show ((sentenceSplit s).map String.data).flatten = coveredPart s.data
  unfold sentenceSplit
  by_cases hm : ((sentencesOf s.data).map String.mk).isEmpty = true
  · rw [if_pos hm]
    have hnil : sentencesOf s.data = [] := by
      rcases hs : sentencesOf s.data with _ | ⟨x, rest⟩
      · rfl
      · rw [hs] at hm
        simp [List.isEmpty] at hm
    have hcov : coveredCore s.data = [] := (sentencesOf_nil_iff s.data).mp hnil
    unfold coveredPart
    rw [if_pos hcov]
    simp
  · rw [if_neg hm]
    have hnil : sentencesOf s.data ≠ [] := by
      intro hs
      rw [hs] at hm
      simp [List.isEmpty] at hm
    have hcov : coveredCore s.data ≠ [] :=
      fun hc => hnil ((sentencesOf_nil_iff s.data).mpr hc)
    unfold coveredPart
    rw [if_neg hcov]
    rw [List.map_map]
    have hmapid : (String.data ∘ String.mk) = (id : List Char → List Char) := by
      funext t
      rfl
    rw [hmapid, List.map_id]
    exact sentencesOf_join s.data

theorem packGo_bound : ∀ (rest : List String) (cur : String) (acc : List String),
    cur.length ≤ maxChunkSize → (∀ x ∈ rest, x.length ≤ maxChunkSize) →
    (∀ x ∈ acc, x.length ≤ maxChunkSize) →
    ∀ ch ∈ packGo cur acc rest, ch.length ≤ maxChunkSize := by
  intro rest
  induction rest with
  | nil =>
    intro cur acc hcur _ hacc ch hch
    rw [packGo] at hch
    by_cases hcur2 : (cur == "") = true
    · rw [if_pos hcur2] at hch
      exact hacc ch hch
    · rw [if_neg hcur2] at hch
      rcases List.mem_append.mp hch with hch | hch
      · exact hacc ch hch
      · rcases List.mem_singleton.mp hch with rfl
        exact hcur
  | cons s rest ih =>
    intro cur acc hcur hrest hacc ch hch
    rw [packGo] at hch
    have hs : s.length ≤ maxChunkSize := hrest s (List.mem_cons_self s rest)
    have hrest2 : ∀ x ∈ rest, x.length ≤ maxChunkSize :=
      fun x hx => hrest x (List.mem_cons_of_mem s hx)
    by_cases hfit : (cur ++ s).length ≤ maxChunkSize
    · rw [if_pos hfit] at hch
      exact ih (cur ++ s) acc hfit hrest2 hacc ch hch
    · rw [if_neg hfit] at hch
      refine ih s _ hs hrest2 ?_ ch hch
      intro x hx
      by_cases hcur2 : (cur == "") = true
      · rw [if_pos hcur2] at hx
        exact hacc x hx
      · rw [if_neg hcur2] at hx
        rcases List.mem_append.mp hx with hx | hx
        · exact hacc x hx
        · rcases List.mem_singleton.mp hx with rfl
          exact hcur

theorem chunkText_bound (s : String)
    (h : ∀ x ∈ sentenceSplit s, x.length ≤ maxChunkSize) :
    ∀ ch ∈ chunkText s, ch.length ≤ maxChunkSize :=
  packGo_bound (sentenceSplit s) "" [] (by decide) h (by simp)

/-!
Helper lemmas about batch translation and the provider chain trace.
-/

theorem collectOk_ok_length : ∀ (rs : List (Except TErr String)) (l : List String),
    collectOk rs = .ok l → l.length = rs.length := by
  intro rs
  induction rs with
  | nil =>
    intro l h
    simp only [collectOk] at h
    cases h
    rfl
  | cons r rs ih =>
    intro l h
    cases r with
    | ok s =>
      simp only [collectOk] at h
      cases h2 : collectOk rs with
      | ok l2 =>
        rw [h2] at h
        cases h
        simp [ih l2 h2]
      | error e =>
        rw [h2] at h
        cases h
    | error e =>
      simp only [collectOk] at h
      cases h

theorem collectOk_all_ok : ∀ rs : List (Except TErr String),
    (∀ r ∈ rs, exceptOk r = true) → collectOk rs = .ok (rs.map okStr) := by
  intro rs
  induction rs with
  | nil => intro _; rfl
  | cons r rs ih =>
    intro h
    obtain ⟨s, hs⟩ := exceptOk_exists r (h r (List.mem_cons_self r rs))
    subst hs
    simp only [collectOk, ih (fun x hx => h x (List.mem_cons_of_mem _ hx)), List.map_cons]
    rfl

theorem translateBatch_len (E : Env) (ext : String → String) (fuel : Nat)
    (texts : List String) :
    (translateBatch E ext fuel texts).length = texts.length := by
  unfold translateBatch
  cases h : collectOk (texts.map (fun text => (translateToTurkish E ext fuel text).1)) with
  | ok l =>
    have := collectOk_ok_length _ l h
    simpa using this
  | error e => rfl

theorem translateBatch_succ (E : Env) (ext : String → String) (fuel : Nat)
    (texts : List String) :
    translateBatch E ext (fuel + 1) texts
      = texts.map (fun t => okValue (translateToTurkish E ext (fuel + 1) t)) := by
  unfold translateBatch
  rw [collectOk_all_ok _ ?_]
  · rw [List.map_map]
    rfl
  · intro r hr
    obtain ⟨t, _, ht⟩ := List.mem_map.mp hr
    rw [← ht]
    exact translate_isOk E ext fuel t

theorem translateBatch_zero (E : Env) (ext : String → String) (texts : List String) :
    translateBatch E ext 0 texts = texts := by
  cases texts with
  | nil => rfl
  | cons t ts => rfl

theorem libreAttempt_snd (E : Env) (c : String) (done : List Call) :
    (libreAttempt E c done).2 = done ++ [Call.libre c] := by
  unfold libreAttempt
  cases hE : E.translateWithLibreTranslate c with
  | ok t =>
    simp only []
    by_cases ha : accept t c = true
    · rw [if_pos ha]
    · rw [if_neg ha]
  | error e => rfl

theorem libreAttempt_fail (E : Env) (c : String) (done : List Call)
    (hL : providerFails (E.translateWithLibreTranslate c) c) :
    libreAttempt E c done = (.ok c, done ++ [Call.libre c]) := by
  unfold libreAttempt
  cases hl : E.translateWithLibreTranslate c with
  | ok t =>
    simp only []
    rw [if_neg (by simp [hL t hl])]
  | error e => rfl

/-!
Claim theorems.
-/

/-- C1: for every input string, translateToTurkish never raises an
exception and always returns a (non-null) string; no error from
sanitization, chunking, or either provider propagates past this top-level
entry point. Fuel models the runtime stack, positive on entry. -/
theorem translateToTurkish_never_throws (E : Env) (ext : String → String)
    (fuel : Nat) (text : String) (hfuel : 0 < fuel) :
    exceptOk (translateToTurkish E ext fuel text).1 = true := by
  cases fuel with
  | zero => exact absurd hfuel (by simp)
  | succ n => exact translate_isOk E ext n text

theorem translateToTurkish_never_throws_witness :
    0 < 1 ∧ exceptOk (translateToTurkish envFail extId 1 cleanSentence).1 = true :=
  ⟨by decide,
   translateToTurkish_never_throws envFail extId 1 cleanSentence (by decide)⟩

/-- C2: for every input whose sanitized form is non-empty and at most 500
characters (the input itself being non-blank, as it must be for cheerio to
produce anything), if Provider A and Provider B both fail, by exception or
by failing the acceptance test, translateToTurkish returns the sanitized
input unchanged, after having called both providers. -/
theorem both_providers_fail_passthrough (E : Env) (ext : String → String)
    (fuel : Nat) (text : String)
    (h1 : trimS text ≠ "") (h2 : stripHtml ext text ≠ "")
    (h3 : (stripHtml ext text).length ≤ maxChunkSize)
    (hG : providerFails (E.translateWithGoogle (stripHtml ext text)) (stripHtml ext text))
    (hL : providerFails (E.translateWithLibreTranslate (stripHtml ext text)) (stripHtml ext text)) :
    translateToTurkish E ext (fuel + 1) text
      = (.ok (stripHtml ext text),
         [Call.google (stripHtml ext text), Call.libre (stripHtml ext text)]) := by
  rw [translate_short E ext fuel text h1 h2 h3]
  unfold googleAttempt
  cases hg : E.translateWithGoogle (stripHtml ext text) with
  | ok g =>
    simp only []
    rw [if_neg (by simp [hG g hg])]
    rw [libreAttempt_fail E _ _ hL]
    rfl
  | error e =>
    rw [libreAttempt_fail E _ _ hL]
    rfl

theorem both_providers_fail_passthrough_witness :
    trimS cleanSentence ≠ "" ∧ stripHtml extId cleanSentence ≠ ""
    ∧ (stripHtml extId cleanSentence).length ≤ maxChunkSize
    ∧ translateToTurkish envFail extId 1 cleanSentence
        = (.ok cleanSentence, [Call.google cleanSentence, Call.libre cleanSentence]) := by
  have hs : stripHtml extId cleanSentence = cleanSentence := by decide
  have h := both_providers_fail_passthrough envFail extId 0 cleanSentence
    (by decide) (by decide) (by decide)
    (fun s hs2 => nomatch hs2) (fun s hs2 => nomatch hs2)
  rw [hs] at h
  exact ⟨by decide, by decide, by decide, h⟩

/-- C3: given a short clean text and a Google result g, the result is
accepted, and returned with only the Google call issued, exactly when it is
non-empty, longer than 10 characters and different from the cleaned input
ignoring case; in particular when g equals the cleaned input ignoring case,
g is rejected and Provider B is attempted: the call trace holds both
provider calls. -/
theorem acceptance_test_iff (E : Env) (ext : String → String) (fuel : Nat)
    (text g : String)
    (h1 : trimS text ≠ "") (h2 : stripHtml ext text ≠ "")
    (h3 : (stripHtml ext text).length ≤ maxChunkSize)
    (hg : E.translateWithGoogle (stripHtml ext text) = .ok g) :
    (translateToTurkish E ext (fuel + 1) text
        = (.ok g, [Call.google (stripHtml ext text)])
      ↔ accept g (stripHtml ext text) = true)
    ∧ (lowerStr g = lowerStr (stripHtml ext text) →
        (translateToTurkish E ext (fuel + 1) text).2
          = [Call.google (stripHtml ext text), Call.libre (stripHtml ext text)]) := by
  rw [translate_short E ext fuel text h1 h2 h3]
  constructor
  · constructor
    · intro hres
      by_contra hacc
      unfold googleAttempt at hres
      rw [hg] at hres
      simp only [] at hres
      rw [if_neg hacc] at hres
      have hsnd := congrArg Prod.snd hres
      rw [libreAttempt_snd] at hsnd
      simp at hsnd
    · intro hacc
      unfold googleAttempt
      rw [hg]
      simp only []
      rw [if_pos hacc]
  · intro hlow
    have hacc : accept g (stripHtml ext text) = false := by
      unfold accept
      rw [hlow]
      simp
    unfold googleAttempt
    rw [hg]
    simp only []
    rw [if_neg (by simp [hacc]), libreAttempt_snd]
    rfl

theorem acceptance_test_iff_witness :
    trimS echoTitle ≠ ""
    ∧ (translateToTurkish envEcho extId 1 echoTitle).2
        = [Call.google echoTitle, Call.libre echoTitle] := by
  have hs : stripHtml extId echoTitle = echoTitle := by decide
  refine ⟨by decide, ?_⟩
  have h := (acceptance_test_iff envEcho extId 0 echoTitle echoTitle
    (by decide) (by decide) (by decide) (by rw [hs]; rfl)).2 (by rw [hs])
  rw [hs] at h
  exact h

set_option maxRecDepth 4000 in
set_option maxHeartbeats 2000000 in
/-- C4 counterexample: the sanitized text longSentence is a single sentence
of 502 characters; the chunker makes it one chunk of 502 characters, so the
claim that every chunk has length at most 500 fails on it. -/
theorem chunking_oversized_counterexample :
    stripHtml extId longSentence = longSentence
    ∧ maxChunkSize < longSentence.length
    ∧ chunkText longSentence = [longSentence]
    ∧ (chunkText longSentence).any (fun ch => decide (maxChunkSize < ch.length)) = true := by
  exact ⟨by decide, by decide, by decide, by decide⟩

/-- C4 (amended): for every input whose sanitized text is longer than 500
characters, translateToTurkish splits the sanitized text on sentence
boundaries, greedily packs consecutive sentences into chunks, translates
each chunk in order through the same pipeline and returns the chunk
translations joined with a single space, order preserved; every chunk has
length at most 500 provided every split sentence has length at most 500 (an
oversized single sentence becomes its own oversized chunk). -/
theorem chunking_pipeline_amended (E : Env) (ext : String → String) (fuel : Nat)
    (text : String) (h1 : trimS text ≠ "")
    (hlen : maxChunkSize < (stripHtml ext text).length) :
    translateToTurkish E ext (fuel + 2) text
        = (.ok (String.intercalate " "
            ((chunkText (stripHtml ext text)).map
              (fun ch => okValue (translateToTurkish E ext (fuel + 1) ch)))),
           ((chunkText (stripHtml ext text)).map
              (fun ch => (translateToTurkish E ext (fuel + 1) ch).2)).flatten)
    ∧ ((∀ sent ∈ sentenceSplit (stripHtml ext text), sent.length ≤ maxChunkSize) →
        ∀ ch ∈ chunkText (stripHtml ext text), ch.length ≤ maxChunkSize) := by
  constructor
  · exact translate_long E ext fuel text h1 hlen
  · exact chunkText_bound (stripHtml ext text)

set_option maxRecDepth 8000 in
set_option maxHeartbeats 4000000 in
theorem chunking_pipeline_amended_witness :
    trimS manyText ≠ "" ∧ maxChunkSize < (stripHtml extId manyText).length
    ∧ (translateToTurkish envFail extId 2 manyText
        = (.ok (String.intercalate " "
            ((chunkText (stripHtml extId manyText)).map
              (fun ch => okValue (translateToTurkish envFail extId 1 ch)))),
           ((chunkText (stripHtml extId manyText)).map
              (fun ch => (translateToTurkish envFail extId 1 ch).2)).flatten)
      ∧ ((∀ sent ∈ sentenceSplit (stripHtml extId manyText), sent.length ≤ maxChunkSize) →
          ∀ ch ∈ chunkText (stripHtml extId manyText), ch.length ≤ maxChunkSize)) :=
  ⟨by decide, by decide,
   chunking_pipeline_amended envFail extId 0 manyText (by decide) (by decide)⟩

set_option maxRecDepth 4000 in
set_option maxHeartbeats 2000000 in
/-- C5 counterexample: fragText is a sanitized text of 502 characters whose
trailing fragment has no sentence terminator; the chunker drops that
fragment, so the concatenation of the chunks differs from the sanitized
text. -/
theorem chunk_coverage_counterexample :
    stripHtml extId fragText = fragText
    ∧ maxChunkSize < fragText.length
    ∧ String.join (chunkText fragText) ≠ fragText := by
  exact ⟨by decide, by decide, by decide⟩

/-- C5 (amended): for every cleaned text, the concatenation of the chunks
equals the covered part of the text: the text itself when the sentence
regex matches nowhere, and otherwise the text without its leading run of
terminators and without its trailing fragment lacking a terminator. In
particular coverage is exact exactly when those dropped parts are empty. -/
theorem chunk_coverage_amended (s : String) :
    String.join (chunkText s) = String.mk (coveredPart s.data) := by
  apply String.ext
  rw [String.data_join]
  exact chunkText_flatten s

/-- C6: the sentiment tagger, applied to the case-folded concatenation of
title and optional body, returns negative whenever the text matches the
negative keyword set (the negative check runs after and overrides a
positive match), positive when it matches the positive set and not the
negative set, and neutral otherwise; summarizeAndTranslate computes the
same sentiment (whenever stack fuel is available); with the three concrete
examples of the specification. -/
theorem sentiment_tagger_rule :
    (∀ (title : String) (btext : Option String),
        (summarizeInEnglish title btext).sentiment
          = (if hasKeyword negativeWords (contentOf title btext) then "negative"
             else if hasKeyword positiveWords (contentOf title btext) then "positive"
             else "neutral"))
    ∧ (∀ (E : Env) (ext : String → String) (fuel : Nat)
          (title : String) (btext : Option String),
        (summarizeAndTranslate E ext (fuel + 1) title btext).sentiment
          = (summarizeInEnglish title btext).sentiment)
    ∧ (summarizeInEnglish "prices surge after rally" none).sentiment = "positive"
    ∧ (summarizeInEnglish "hack causes crash" none).sentiment = "negative"
    ∧ (summarizeInEnglish "quarterly report released" none).sentiment = "neutral" := by
  refine ⟨?_, ?_, by decide, by decide, by decide⟩
  · intro title btext
    show analyzeSentiment title btext = _
    unfold analyzeSentiment
    cases hneg : hasKeyword negativeWords (contentOf title btext) <;>
      cases hpos : hasKeyword positiveWords (contentOf title btext) <;>
        simp [hneg, hpos]
  · intro E ext fuel title btext
    obtain ⟨s, hs⟩ := translate_ok_exists E ext fuel title
    unfold summarizeAndTranslate
    rcases ht : translateToTurkish E ext (fuel + 1) title with ⟨r, calls⟩
    rw [ht] at hs
    simp only at hs
    rw [hs]
    rfl

/-- C7: the sanitizer is idempotent on text already free of markup and
noise patterns; freedom from markup is expressed by the extraction leaving
the text (and the empty string) unchanged, freedom from noise by isClean. -/
theorem sanitize_idempotent (ext : String → String) (x : String)
    (hc : isClean x) (he : ext x = x) (he0 : ext "" = "") :
    stripHtml ext (stripHtml ext x) = stripHtml ext x := by
  rw [stripHtml_clean ext x hc he]
  by_cases h10 : x.length < 10
  · rw [if_pos h10]
    exact stripHtml_emptyIn ext he0
  · rw [if_neg h10]
    rw [stripHtml_clean ext x hc he, if_neg h10]

theorem sanitize_idempotent_witness :
    isClean cleanSample
    ∧ stripHtml extId (stripHtml extId cleanSample) = stripHtml extId cleanSample :=
  ⟨by decide, sanitize_idempotent extId cleanSample (by decide) rfl rfl⟩

/-- C8: translateBatch returns a list of the same length whose entries are
positionally the translations of the inputs (order preserved, individual
failures degrading inside translateToTurkish); and when the whole batch
operation throws (out of stack), it returns the original input list
unchanged. -/
theorem translateBatch_order_and_fallback (E : Env) (ext : String → String)
    (fuel : Nat) (texts : List String) :
    (translateBatch E ext fuel texts).length = texts.length
    ∧ translateBatch E ext (fuel + 1) texts
        = texts.map (fun t => okValue (translateToTurkish E ext (fuel + 1) t))
    ∧ translateBatch E ext 0 texts = texts :=
  ⟨translateBatch_len E ext fuel texts, translateBatch_succ E ext fuel texts,
   translateBatch_zero E ext texts⟩

/-- C9: evaluation of the endpoint at a failing input. With a well formed
body whose text is valid and a provider returning null, the catch block
reads the request body a second time; the read throws, the error escapes
the handler, and no 500 response with error and translation fields is
produced. The 400 branch for invalid input behaves as claimed. -/
theorem route_post_failure_eval :
    POST (fun _ => none) extId (RtBody.wellFormed (TextField.strVal "hello world example"))
        = .error RtErr.bodyUsed
    ∧ POST (fun _ => none) extId (RtBody.wellFormed TextField.missing)
        = .ok ⟨400, some "Invalid text provided", none⟩ :=
  ⟨rfl, rfl⟩

/-- C10: input that is empty, blank, or whose sanitized form is empty or
blank is returned unchanged, with no provider contacted (empty call trace);
and any text whose cleaned form has fewer than 10 characters sanitizes to
the empty string. -/
theorem blank_input_passthrough (E : Env) (ext : String → String) (fuel : Nat)
    (text : String)
    (h : text = "" ∨ trimS text = "" ∨ stripHtml ext text = ""
         ∨ trimS (stripHtml ext text) = "") :
    translateToTurkish E ext (fuel + 1) text = (.ok text, [])
    ∧ ∀ y : String, (stripPipeline ext y).length < 10 → stripHtml ext y = "" := by
  constructor
  · exact translate_blank E ext fuel text h
  · intro y hy
    unfold stripHtml
    rw [if_pos hy]

theorem blank_input_passthrough_witness :
    stripHtml extId shortHtml = ""
    ∧ translateToTurkish envFail extId 1 shortHtml = (.ok shortHtml, []) := by
  have h : stripHtml extId shortHtml = "" := by decide
  exact ⟨h,
    (blank_input_passthrough envFail extId 0 shortHtml (Or.inr (Or.inr (Or.inl h)))).1⟩

end VoltNews
